import Mathlib

/-!
Verification of the adjudication bridge (scripts/adjudicate.py).

The development shallowly embeds the two components of the program:

* the SVG render post-processor `strip_non_sc_coloring` together with the
  exact matching behaviour of the two regular expressions it uses
  (documents are lists of characters, positions are natural numbers);
* the request dispatcher `main`, with the external adjudication engine
  modelled as a record of fallible operations and Python exceptions
  modelled with `Except`.

All definitions are translated directly from the Python source; doc
comments cite the lines they embed.
-/

set_option maxRecDepth 8000

namespace Adjudicate

/-- A document (Python `str`) is modelled as a list of characters. -/
abbrev Doc := List Char

/-- The characters matched by the regular-expression class backslash-s when
Python applies it to a `str` (ASCII whitespace, the C1 separators, NEL, and
the Unicode space characters). -/
def pySpaceChars : List Char :=
  [' ', '\t', '\n', '\r', '\x0b', '\x0c', '\x1c', '\x1d', '\x1e', '\x1f',
   '\x85', '\u00A0', '\u1680', '\u2000', '\u2001', '\u2002', '\u2003',
   '\u2004', '\u2005', '\u2006', '\u2007', '\u2008', '\u2009', '\u200A',
   '\u2028', '\u2029', '\u202F', '\u205F', '\u3000']

/-- Whether a character is whitespace for the regular expressions of the
source file. -/
def isPySpace (c : Char) : Bool := pySpaceChars.contains c

/-- A character of the class `[a-z_]` used by the province-identity regular
expression. -/
def isLowerUnd (c : Char) : Bool := ('a' ≤ c && c ≤ 'z') || c = '_'

/-- If `s` starts with the literal `lit`, return the remainder of `s`,
otherwise `none`. -/
def dropLit : Doc → Doc → Option Doc
  | [], s => some s
  | _ :: _, [] => none
  | l :: ls, c :: cs => if c = l then dropLit ls cs else none

/-- Length of the longest run of characters satisfying `p` at the head of
the list (the forced extent of a greedy character-class repetition). -/
def countWhile (p : Char → Bool) : Doc → Nat
  | [] => 0
  | c :: cs => if p c then countWhile p cs + 1 else 0

/-- adjudicate.py line 30: the alternation
`austria|england|france|germany|italy|russia|turkey`, in source order.
The alternatives are lower case: the pattern is compiled without any
case-insensitivity flag. -/
def POWERS_RE : List Doc :=
  [("austria").data, ("england").data, ("france").data, ("germany").data,
   ("italy").data, ("russia").data, ("turkey").data]

/-- Match the power alternation at the head of `s`, returning the number of
characters consumed.  The alternatives are tried in source order; none is a
prefix of another, so at most one can match at a given position. -/
def matchPower : List Doc → Doc → Option (Nat × Doc)
  | [], _ => none
  | p :: ps, s =>
    match dropLit p s with
    | some rest => some (p.length, rest)
    | none => matchPower ps s

/-- Match the tail regular expression `[^/]*/>` at the head of `s` and
return the number of characters consumed.  The greedy `[^/]*` cannot
backtrack past the first `/` (every earlier character is not `/`), so the
match succeeds exactly when the first `/` of `s` is immediately followed by
`>`, and extends through that `>`. -/
def findSlashClose : Doc → Option Nat
  | [] => none
  | c :: rest =>
    if c = '/' then
      if rest.head? = some '>' then some 2 else none
    else (findSlashClose rest).map (fun m => m + 1)

/-- Literal `<path`. -/
def litPath : Doc := ("<path").data

/-- Literal `class="`. -/
def litClassEq : Doc := ("class=\"").data

/-- adjudicate.py line 54: match the compiled overlay pattern
`\s*<path\s+class="(?:POWERS_RE)"[^/]*/>` anchored at the head of `s`,
returning the length of the match.  Each greedy repetition here is forced:
`\s*` must end exactly where `<path` begins, `\s+` exactly where `class="`
begins, and `[^/]*` at the first slash, which must begin `/>`. -/
def matchOverlayAt (s : Doc) : Option Nat :=
  let w := countWhile isPySpace s
  match dropLit litPath (s.drop w) with
  | none => none
  | some s2 =>
    let w2 := countWhile isPySpace s2
    if w2 = 0 then none
    else
      match dropLit litClassEq (s2.drop w2) with
      | none => none
      | some s4 =>
        match matchPower POWERS_RE s4 with
        | none => none
        | some (k, s5) =>
          match s5 with
          | [] => none
          | c5 :: s6 =>
            if c5 = '"' then
              (findSlashClose s6).map (fun m => w + 5 + w2 + 7 + k + 1 + m)
            else none

/-- `re.finditer` scan for the overlay pattern: try each position from left
to right, and continue after the end of every (non-empty) match.  `s` is
the suffix of the document starting at absolute position `pos`; the
returned spans `(start, stop)` are absolute.  The fuel argument only bounds
the recursion and is irrelevant once it exceeds the length of `s`. -/
def scanOverlays : Nat → Doc → Nat → List (Nat × Nat)
  | 0, _, _ => []
  | _ + 1, [], _ => []
  | fuel + 1, s, pos =>
    match matchOverlayAt s with
    | some len => (pos, pos + len) :: scanOverlays fuel (s.drop len) (pos + len)
    | none => scanOverlays fuel (s.drop 1) (pos + 1)

/-- All spans of the overlay pattern in `svg`, as produced by
`re.finditer` at line 57 of adjudicate.py. -/
def findOverlays (svg : Doc) : List (Nat × Nat) :=
  scanOverlays (svg.length + 1) svg 0

/-- Literal `id="`. -/
def litIdEq : Doc := ("id=\"").data

/-- adjudicate.py line 47: match the identity-marker pattern
`id="(_[a-z_]+)"` at the head of `s`, returning the first capture group and
the length of the whole match.  The greedy `[a-z_]+` is forced to its
maximal run because the following `"` is not in the class. -/
def matchIdAt (s : Doc) : Option (Doc × Nat) :=
  match dropLit litIdEq s with
  | none => none
  | some s1 =>
    match s1 with
    | [] => none
    | c1 :: s2 =>
      if c1 = '_' then
        let r := countWhile isLowerUnd s2
        if r = 0 then none
        else
          if (s2.drop r).head? = some '"' then some ('_' :: s2.take r, 4 + 1 + r + 1)
          else none
      else none

/-- `re.finditer` scan for identity markers, returning the capture groups
in document order. -/
def scanIds : Nat → Doc → List Doc
  | 0, _ => []
  | _ + 1, [] => []
  | fuel + 1, s =>
    match matchIdAt s with
    | some (g, len) => g :: scanIds fuel (s.drop len)
    | none => scanIds fuel (s.drop 1)

/-- The capture groups of all identity-marker matches in `s`
(adjudicate.py line 47, `list(re.finditer(...))`). -/
def idMatches (s : Doc) : List Doc :=
  scanIds (s.length + 1) s

/-- adjudicate.py lines 41-43: the current supply-center set, the union
over the values of the `centers` mapping of every center identifier
normalised by `c.upper()[:3]`.  The Python set is modelled by a list with
membership; `str.upper` agrees with character-wise `Char.toUpper` on the
ASCII identifiers involved. -/
def all_scs (centers : List (String × List String)) : List Doc :=
  ((centers.map (fun pc => pc.2)).flatten).map
    (fun c => (c.data.map Char.toUpper).take 3)

/-- adjudicate.py lines 45-51, `should_keep`: look at the 500 characters of
the original document preceding the match start, take the last
identity-marker match there, normalise its group by
`.lstrip("_").upper()[:3]`, and keep the overlay exactly when that code is
a current supply center.  If no marker is found the overlay is kept.
`start - 500` is natural-number subtraction, which matches the Python
`max(0, start - 500)`. -/
def should_keep (svg : Doc) (scs : List Doc) (start : Nat) : Bool :=
  let preceding := (svg.take start).drop (start - 500)
  match (idMatches preceding).getLast? with
  | none => true
  | some g =>
    decide ((((g.dropWhile (fun c => c = '_')).map Char.toUpper).take 3) ∈ scs)

/-- adjudicate.py lines 55-63: the reassembly loop.  `last` is the
`last_end` variable; a kept match contributes `svg[last_end:m.end()]`, a
dropped one contributes `svg[last_end:m.start()]`, and the tail
`svg[last_end:]` is appended at the end. -/
def stripGo (svg : Doc) (scs : List Doc) : List (Nat × Nat) → Nat → Doc
  | [], last => svg.drop last
  | (s, e) :: rest, last =>
    (if should_keep svg scs s then (svg.take e).drop last
     else (svg.take s).drop last) ++ stripGo svg scs rest e

/-- adjudicate.py lines 33-64, `strip_non_sc_coloring`. -/
def strip_non_sc_coloring (svg : Doc) (centers : List (String × List String)) : Doc :=
  stripGo svg (all_scs centers) (findOverlays svg) 0

/-- Written from the spec wording: resolve the province of an overlay
starting at `start` as the nearest preceding identity marker within the
preceding bounded window of 500 characters, normalised to upper case first
three characters (the marker code is taken without its leading
underscores); `none` when no marker can be found. -/
def resolveProvince (svg : Doc) (start : Nat) : Option Doc :=
  ((idMatches ((svg.take start).drop (start - 500))).getLast?).map
    (fun g => ((g.dropWhile (fun c => c = '_')).map Char.toUpper).take 3)

/-- Written from the spec wording: keep an overlay exactly when its
resolved province is a current supply center, and fail open (keep) when no
province can be resolved. -/
def keepSpec (svg : Doc) (scs : List Doc) (start : Nat) : Bool :=
  match resolveProvince svg start with
  | none => true
  | some p => decide (p ∈ scs)

/-- Delete the given (sorted, disjoint) spans from `svg`: keep the gap
before each span, skip the span itself, and keep the tail after the last
span.  `last` is the end of the previously deleted span. -/
def deleteSpansGo (svg : Doc) : List (Nat × Nat) → Nat → Doc
  | [], last => svg.drop last
  | (a, b) :: rest, last => (svg.take a).drop last ++ deleteSpansGo svg rest b

/-- Delete the given spans from the document. -/
def deleteSpans (svg : Doc) (spans : List (Nat × Nat)) : Doc :=
  deleteSpansGo svg spans 0

/-- The spans are ordered, start at or after `lo`, and end at or before
`hi`. -/
def spansChain : Nat → Nat → List (Nat × Nat) → Prop
  | _, _, [] => True
  | lo, hi, (a, b) :: rest => lo ≤ a ∧ a ≤ b ∧ b ≤ hi ∧ spansChain b hi rest

/-! ## The request dispatcher -/

/-- A value parsed from JSON.  Floating-point literals do not occur in any
claim; numeric literals are modelled as integers. -/
inductive Json where
  | null : Json
  | bool : Bool → Json
  | num : Int → Json
  | str : String → Json
  | arr : List Json → Json
  | obj : List (String × Json) → Json

/-- Python truthiness of a value parsed from JSON (`if not game_state`). -/
def truthy : Json → Bool
  | Json.null => false
  | Json.bool b => b
  | Json.num n => decide (n ≠ 0)
  | Json.str s => decide (s.length ≠ 0)
  | Json.arr xs => decide (xs.length ≠ 0)
  | Json.obj kvs => decide (kvs.length ≠ 0)

/-- Truthiness of `request.get(key)`: a missing key gives Python `None`,
which is falsy. -/
def truthyOpt (o : Option Json) : Bool := (o.map truthy).getD false

/-- The Python type name of a value parsed from JSON. -/
def pyTypeName : Json → String
  | Json.null => "NoneType"
  | Json.bool _ => "bool"
  | Json.num _ => "int"
  | Json.str _ => "str"
  | Json.arr _ => "list"
  | Json.obj _ => "dict"

mutual

/-- Python repr() of a value parsed from JSON (escaping inside string
reprs is not modelled; no claim formats a string needing escapes). -/
def pyRepr : Json → String
  | Json.null => "None"
  | Json.bool true => "True"
  | Json.bool false => "False"
  | Json.num n => toString n
  | Json.str s => ("\x27") ++ s ++ ("\x27")
  | Json.arr xs => ("[") ++ pyReprSeq xs ++ ("]")
  | Json.obj kvs => ("\x7b") ++ pyReprKVs kvs ++ ("\x7d")

/-- Comma-separated reprs of the elements of a list. -/
def pyReprSeq : List Json → String
  | [] => ""
  | [x] => pyRepr x
  | x :: xs => pyRepr x ++ (", ") ++ pyReprSeq xs

/-- Comma-separated `key: value` reprs of the entries of a dict. -/
def pyReprKVs : List (String × Json) → String
  | [] => ""
  | [(k, v)] => ("\x27") ++ k ++ ("\x27: ") ++ pyRepr v
  | (k, v) :: kvs =>
    ("\x27") ++ k ++ ("\x27: ") ++ pyRepr v ++ (", ") ++ pyReprKVs kvs

end

/-- Python str() of a value parsed from JSON: identity on strings,
repr on everything else. -/
def pyStr : Json → String
  | Json.str s => s
  | v => pyRepr v

/-- Python str() of a `request.get` result (`f"Unknown op: [op]"`):
a missing key formats as `None`. -/
def pyStrOpt : Option Json → String
  | none => "None"
  | some v => pyStr v

/-- Python dict lookup for an object parsed from JSON; `json.loads` keeps
the last value of a duplicated key. -/
def dictGet (kvs : List (String × Json)) (k : String) : Option Json :=
  ((kvs.reverse).find? (fun p => p.1 == k)).map (fun p => p.2)

/-- A Python exception: its type name and its message
(`f"[type(e).__name__]: [e]"` at line 200). -/
structure PyErr where
  name : String
  msg : String

/-- The single JSON document written to stdout: the `ok` flag and the
optional `result` and `error` fields. -/
structure Response where
  ok : Bool
  result : Option Json
  error : Option String

/-- The failure response `json.dump({"ok": False, "error": msg})`. -/
def errResp (msg : String) : Response := ⟨false, none, some msg⟩

/-- The success response `json.dump({"ok": True, "result": r})`. -/
def okResp (r : Json) : Response := ⟨true, some r, none⟩

/-- The external adjudication engine together with the per-operation
handlers of adjudicate.py (lines 67-155), which only marshal engine
calls: the spec treats them as an opaque capability.  `G` is the opaque
type of a deserialised game; every operation may raise. -/
structure Engine (G : Type) where
  new_game : Except PyErr Json
  load_game : Json → Except PyErr G
  set_orders_and_process : G → Json → Json → Except PyErr Json
  get_possible_orders : G → Except PyErr Json
  get_state : G → Except PyErr Json
  render_map : G → Except PyErr Json

/-- `request.get` as used at line 166: only a dict has a `get` method; on
any other value an AttributeError is raised, and line 166 sits outside
both try blocks.  The message matches CPython. -/
def pyGetAttrGet : Json → Except PyErr (String → Option Json)
  | Json.obj kvs => Except.ok (fun k => dictGet kvs k)
  | v => Except.error ⟨("AttributeError"),
      ("\x27") ++ pyTypeName v ++ ("\x27 object has no attribute \x27get\x27")⟩

/-- The operation names requiring `game_state` (the tuple at line 172). -/
def stateOps : List String :=
  [("set_orders_and_process"), ("get_possible"), ("get_state"), ("render_map")]

/-- Python `op == name` for `op` the result of `request.get("op")` and
`name` a string literal: only a string can compare equal to a string;
`None` and values of any other type compare unequal. -/
def opEq (op : Option Json) (name : String) : Bool :=
  match op with
  | some (Json.str s) => s == name
  | _ => false

/-- adjudicate.py lines 166-197: the dispatch on `op` (the body of the
inner try).  `Except.error` models an exception raised by the engine,
caught at line 199. -/
def runOp {G : Type} (get : String → Option Json) (eng : Engine G) :
    Except PyErr Response :=
  let op := get ("op")
  if opEq op ("new_game") then
    (eng.new_game).map okResp
  else if stateOps.any (fun s => opEq op s) then
    let gs := get ("game_state")
    if truthyOpt gs = false then Except.ok (errResp ("Missing game_state"))
    else do
      let g ← eng.load_game (gs.getD Json.null)
      if opEq op ("set_orders_and_process") then
        let orders := (get ("orders")).getD (Json.obj [])
        let rnd := (get ("render")).getD (Json.bool false)
        (eng.set_orders_and_process g orders rnd).map okResp
      else if opEq op ("get_possible") then
        (eng.get_possible_orders g).map okResp
      else if opEq op ("get_state") then
        (eng.get_state g).map okResp
      else if opEq op ("render_map") then
        (eng.render_map g).map okResp
      else Except.ok (okResp Json.null)
  else Except.ok (errResp (("Unknown op: ") ++ pyStrOpt op))

/-- adjudicate.py lines 158-200, `main`.  `input` is the outcome of
`json.loads` on stdin (`Except.error` carries the JSONDecodeError
message).  The result is `Except.ok` of the single JSON response written
to stdout, or `Except.error` of an exception escaping `main` and crashing
the process. -/
def main {G : Type} (input : Except String Json) (eng : Engine G) :
    Except PyErr Response :=
  match input with
  | Except.error e => Except.ok (errResp (("Invalid JSON: ") ++ e))
  | Except.ok request =>
    match pyGetAttrGet request with
    | Except.error err => Except.error err
    | Except.ok get =>
      Except.ok
        (match runOp get eng with
         | Except.ok resp => resp
         | Except.error e => errResp (e.name ++ (": ") ++ e.msg))

/-! ## Order-result extraction (`set_orders_and_process`, lines 112-120) -/

/-- One entry of `saved["phases"]`: `p["name"]` is read unconditionally,
`orders` and `results` are read with `.get(key, default)`. -/
structure PhaseEntry where
  name : String
  orders : Option Json
  results : Option Json

/-- adjudicate.py lines 113-120: keep the history entries whose name
differs from the current phase and, when there are any, surface the
orders and results of the last one; otherwise the `order_results` field
is omitted (`none`).  `phases?` models `saved.get("phases", [])`;
`current` is `game.get_current_phase()` after processing. -/
def extract_order_results (phases? : Option (List PhaseEntry))
    (current : String) : Option (Json × Json) :=
  let completed := (phases?.getD []).filter (fun p => p.name != current)
  match completed.getLast? with
  | none => none
  | some last =>
    some ((last.orders).getD (Json.obj []), (last.results).getD (Json.obj []))

/-- Written from the spec wording: the entry of the history whose phase
label differs from the new current phase label, taking the most recently
completed one (the last such entry). -/
def lastCompletedEntry (phases : List PhaseEntry) (current : String) :
    Option PhaseEntry :=
  (phases.reverse).find? (fun p => p.name != current)

/-! ## Concrete documents and a concrete engine used by the witness and
counterexample theorems -/

/-- An identity marker for a province `boo` that is not a supply center of
`centersParis`. -/
def markerBoo : Doc := ("<path id=\"_boo\"/>").data

/-- An identity marker for the supply center `par`. -/
def markerPar : Doc := ("<path id=\"_par\"/>").data

/-- A long power-colored overlay: its body pads more than 500 characters,
pushing the preceding marker out of the lookback window of anything that
follows it. -/
def overlayLong : Doc :=
  ("<path class=\"france\" ").data ++ List.replicate 510 'x' ++ ("/>").data

/-- A short lower-case power-colored overlay. -/
def overlayShort : Doc := ("<path class=\"france\" y/>").data

/-- The same overlay with the power identifier in upper case. -/
def overlayUpper : Doc := ("<path class=\"FRANCE\" y/>").data

/-- Counterexample document for idempotence: marker, long overlay, short
overlay. -/
def svgShift : Doc := markerBoo ++ overlayLong ++ overlayShort

/-- A document whose only overlay-like element carries an upper-case power
identifier. -/
def svgUpper : Doc := markerBoo ++ overlayUpper

/-- The same document with the lower-case identifier. -/
def svgLower : Doc := markerBoo ++ overlayShort

/-- A document whose single overlay belongs to a current supply center. -/
def svgKept : Doc := markerPar ++ ("<path class=\"france\" z/>").data

/-- A centers mapping whose only current supply center is `PAR`. -/
def centersParis : List (String × List String) := [(("FRANCE"), [("PAR")])]

/-- A concrete engine over the unit handle type, used to instantiate the
dispatcher theorems. -/
def unitEngine : Engine Unit where
  new_game := Except.ok Json.null
  load_game := fun _ => Except.ok ()
  set_orders_and_process := fun _ _ _ => Except.ok Json.null
  get_possible_orders := fun _ => Except.ok Json.null
  get_state := fun _ => Except.ok Json.null
  render_map := fun _ => Except.ok Json.null

/-! ## Length accounting for the overlay matcher -/

theorem dropLit_length : ∀ (lit s r : Doc), dropLit lit s = some r →
    s.length = lit.length + r.length := by
  intro lit
  induction lit with
  | nil =>
    intro s r h
    simp only [dropLit, Option.some.injEq] at h
    subst h; simp
  | cons l ls ih =>
    intro s r h
    cases s with
    | nil => simp [dropLit] at h
    | cons c cs =>
      simp only [dropLit] at h
      by_cases hc : c = l
      · rw [if_pos hc] at h
        have := ih cs r h
        simp only [List.length_cons, this]
        omega
      · rw [if_neg hc] at h
        exact absurd h (by simp)

theorem countWhile_le (p : Char → Bool) : ∀ s : Doc, countWhile p s ≤ s.length := by
  intro s
  induction s with
  | nil => simp [countWhile]
  | cons c cs ih =>
    simp only [countWhile]
    by_cases h : p c
    · rw [if_pos h]; simp only [List.length_cons]; omega
    · rw [if_neg h]; simp

theorem findSlashClose_le : ∀ (s : Doc) (m : Nat), findSlashClose s = some m →
    m ≤ s.length := by
  intro s
  induction s with
  | nil => intro m h; simp [findSlashClose] at h
  | cons c rest ih =>
    intro m h
    simp only [findSlashClose] at h
    by_cases hc : c = '/'
    · rw [if_pos hc] at h
      by_cases hd : rest.head? = some '>'
      · rw [if_pos hd] at h
        cases rest with
        | nil => simp at hd
        | cons d ds =>
          simp only [Option.some.injEq] at h
          subst h; simp only [List.length_cons]; omega
      · rw [if_neg hd] at h
        exact absurd h (by simp)
    · rw [if_neg hc] at h
      simp only [Option.map_eq_some'] at h
      obtain ⟨m', hm', rfl⟩ := h
      have := ih m' hm'
      simp only [List.length_cons]; omega

theorem matchPower_length : ∀ (ps : List Doc) (s : Doc) (k : Nat) (r : Doc),
    matchPower ps s = some (k, r) → s.length = k + r.length := by
  intro ps
  induction ps with
  | nil => intro s k r h; simp [matchPower] at h
  | cons p ps ih =>
    intro s k r h
    simp only [matchPower] at h
    cases hd : dropLit p s with
    | some rest =>
      rw [hd] at h
      simp only [Option.some.injEq, Prod.mk.injEq] at h
      obtain ⟨h1, h2⟩ := h
      subst h1; subst h2
      exact dropLit_length p s rest hd
    | none =>
      rw [hd] at h
      exact ih s k r h

theorem matchOverlayAt_le : ∀ (s : Doc) (len : Nat), matchOverlayAt s = some len →
    1 ≤ len ∧ len ≤ s.length := by
  intro s len h
  simp only [matchOverlayAt] at h
  have hw : countWhile isPySpace s ≤ s.length := countWhile_le _ s
  cases h2 : dropLit litPath (s.drop (countWhile isPySpace s)) with
  | none => rw [h2] at h; exact absurd h (by simp)
  | some s2 =>
    rw [h2] at h
    have hlen2 : (s.drop (countWhile isPySpace s)).length = litPath.length + s2.length :=
      dropLit_length _ _ _ h2
    rw [List.length_drop] at hlen2
    have hlitPath : litPath.length = 5 := by decide
    simp only at h
    by_cases hw2 : countWhile isPySpace s2 = 0
    · rw [if_pos hw2] at h; exact absurd h (by simp)
    · rw [if_neg hw2] at h
      have hw2le : countWhile isPySpace s2 ≤ s2.length := countWhile_le _ s2
      cases h4 : dropLit litClassEq (s2.drop (countWhile isPySpace s2)) with
      | none => rw [h4] at h; exact absurd h (by simp)
      | some s4 =>
        rw [h4] at h
        have hlen4 : (s2.drop (countWhile isPySpace s2)).length = litClassEq.length + s4.length :=
          dropLit_length _ _ _ h4
        rw [List.length_drop] at hlen4
        have hlitClass : litClassEq.length = 7 := by decide
        simp only at h
        cases h5 : matchPower POWERS_RE s4 with
        | none => rw [h5] at h; exact absurd h (by simp)
        | some ks5 =>
          obtain ⟨k, s5⟩ := ks5
          rw [h5] at h
          have hlen5 : s4.length = k + s5.length := matchPower_length _ _ _ _ h5
          simp only at h
          cases s5 with
          | nil => exact absurd h (by simp)
          | cons c5 s6 =>
            simp only at h
            by_cases hc5 : c5 = '"'
            · rw [if_pos hc5] at h
              simp only [Option.map_eq_some'] at h
              obtain ⟨m, hm, hlen⟩ := h
              have hm6 : m ≤ s6.length := findSlashClose_le s6 m hm
              simp only [List.length_cons] at hlen5
              omega
            · rw [if_neg hc5] at h
              exact absurd h (by simp)

/-! ## The spans produced by the scan are ordered and within bounds -/

theorem spansChain_mono {lo lo' hi : Nat} {ms : List (Nat × Nat)}
    (h : lo' ≤ lo) (hc : spansChain lo hi ms) : spansChain lo' hi ms := by
  cases ms with
  | nil => trivial
  | cons m rest =>
    obtain ⟨a, b⟩ := m
    obtain ⟨h1, h2, h3, h4⟩ := hc
    exact ⟨le_trans h h1, h2, h3, h4⟩

theorem scanOverlays_chain : ∀ (fuel : Nat) (s : Doc) (pos : Nat),
    spansChain pos (pos + s.length) (scanOverlays fuel s pos) := by
  intro fuel
  induction fuel with
  | zero => intro s pos; trivial
  | succ fuel ih =>
    intro s pos
    cases s with
    | nil => trivial
    | cons c cs =>
      cases hm : matchOverlayAt (c :: cs) with
      | some len =>
        have hle := matchOverlayAt_le _ _ hm
        simp only [scanOverlays, hm]
        have hdrop : ((c :: cs).drop len).length = (c :: cs).length - len := by
          simp [List.length_drop]
        have ihx := ih ((c :: cs).drop len) (pos + len)
        have harith : pos + len + ((c :: cs).drop len).length = pos + (c :: cs).length := by
          rw [hdrop]; simp only [List.length_cons] at hle ⊢; omega
        rw [harith] at ihx
        exact ⟨le_refl pos, by omega, by simp only [List.length_cons] at hle ⊢; omega, ihx⟩
      | none =>
        simp only [scanOverlays, hm]
        have ihx := ih ((c :: cs).drop 1) (pos + 1)
        have harith : pos + 1 + ((c :: cs).drop 1).length = pos + (c :: cs).length := by
          simp only [List.length_drop, List.length_cons]; omega
        rw [harith] at ihx
        exact spansChain_mono (by omega) ihx

theorem findOverlays_chain (svg : Doc) :
    spansChain 0 svg.length (findOverlays svg) := by
  have := scanOverlays_chain (svg.length + 1) svg 0
  simpa using this

theorem spansChain_filter {hi : Nat} {p : Nat × Nat → Bool} :
    ∀ {ms : List (Nat × Nat)} {lo : Nat}, spansChain lo hi ms →
      spansChain lo hi (ms.filter p) := by
  intro ms
  induction ms with
  | nil => intro lo _; trivial
  | cons m rest ih =>
    intro lo hc
    obtain ⟨a, b⟩ := m
    obtain ⟨h1, h2, h3, h4⟩ := hc
    rw [List.filter_cons]
    by_cases hp : p (a, b)
    · rw [if_pos hp]
      exact ⟨h1, h2, h3, ih h4⟩
    · rw [if_neg hp]
      exact spansChain_mono (by omega) (ih h4)


/-! ## Slices of the document -/

theorem slice_split {l : Doc} {a b c : Nat} (hab : a ≤ b) (hbl : b ≤ l.length)
    (hbc : b ≤ c) :
    (l.take c).drop a = (l.take b).drop a ++ (l.take c).drop b := by
  conv_lhs => rw [← List.take_append_drop b (l.take c)]
  rw [List.take_take, min_eq_left hbc]
  rw [List.drop_append_of_le_length (by simp [List.length_take]; omega)]

theorem drop_split {l : Doc} {a b : Nat} (hab : a ≤ b) (hbl : b ≤ l.length) :
    l.drop a = (l.take b).drop a ++ l.drop b := by
  conv_lhs => rw [← List.take_append_drop b l]
  rw [List.drop_append_of_le_length (by simp [List.length_take]; omega)]

/-! ## The reassembly loop deletes exactly the dropped spans -/

theorem deleteSpansGo_split {svg : Doc} {spans : List (Nat × Nat)} {last e : Nat}
    (hle : last ≤ e) (hel : e ≤ svg.length) (hc : spansChain e svg.length spans) :
    deleteSpansGo svg spans last = (svg.take e).drop last ++ deleteSpansGo svg spans e := by
  cases spans with
  | nil => exact drop_split hle hel
  | cons m rest =>
    obtain ⟨a, b⟩ := m
    obtain ⟨hea, hab, hbl, hrest⟩ := hc
    simp only [deleteSpansGo]
    rw [slice_split hle hel hea, List.append_assoc]

theorem stripGo_eq_deleteSpansGo {svg : Doc} {scs : List Doc} :
    ∀ (ms : List (Nat × Nat)) (last : Nat), spansChain last svg.length ms →
      stripGo svg scs ms last =
        deleteSpansGo svg (ms.filter (fun m => ! should_keep svg scs m.1)) last := by
  intro ms
  induction ms with
  | nil => intro last _; rfl
  | cons m rest ih =>
    intro last hc
    obtain ⟨a, b⟩ := m
    obtain ⟨hla, hab, hbl, hrest⟩ := hc
    rw [List.filter_cons]
    by_cases hk : should_keep svg scs (a, b).1
    · rw [if_neg (by simp [hk])]
      simp only [stripGo]
      rw [if_pos hk]
      rw [ih b hrest]
      rw [← deleteSpansGo_split (le_trans hla hab) hbl (spansChain_filter hrest)]
    · rw [if_pos (by simp [hk])]
      simp only [stripGo, deleteSpansGo]
      rw [if_neg hk]
      rw [ih b hrest]

theorem stripGo_keepAll {svg : Doc} {scs : List Doc} :
    ∀ (ms : List (Nat × Nat)) (last : Nat), spansChain last svg.length ms →
      (∀ m ∈ ms, should_keep svg scs m.1 = true) →
      stripGo svg scs ms last = svg.drop last := by
  intro ms
  induction ms with
  | nil => intro last _ _; rfl
  | cons m rest ih =>
    intro last hc hall
    obtain ⟨a, b⟩ := m
    obtain ⟨hla, hab, hbl, hrest⟩ := hc
    simp only [stripGo]
    rw [if_pos (hall (a, b) (by simp))]
    rw [ih b hrest (fun m hm => hall m (by simp [hm]))]
    exact (drop_split (le_trans hla hab) hbl).symm

/-- The pointwise keep decision of the code agrees with the spec-side
description. -/
theorem should_keep_eq_keepSpec (svg : Doc) (scs : List Doc) (start : Nat) :
    should_keep svg scs start = keepSpec svg scs start := by
  unfold should_keep keepSpec resolveProvince
  dsimp only
  generalize ((idMatches ((svg.take start).drop (start - 500))).getLast?) = o
  cases o with
  | none => rfl
  | some g => rfl



/-! ## Helper lemmas for the order-result extraction -/

theorem head?_filter {α : Type} (p : α → Bool) :
    ∀ (l : List α), (l.filter p).head? = l.find? p := by
  intro l
  induction l with
  | nil => rfl
  | cons a l ih =>
    rw [List.filter_cons, List.find?_cons]
    by_cases h : p a
    · simp [h]
    · simp [h, ih]

theorem getLast?_filter {α : Type} (p : α → Bool) (l : List α) :
    (l.filter p).getLast? = (l.reverse).find? p := by
  rw [← List.head?_reverse, ← List.filter_reverse, head?_filter]


/-! ## Decomposition of a matched overlay -/

theorem dropLit_eq_append : ∀ (lit s r : Doc), dropLit lit s = some r → s = lit ++ r := by
  intro lit
  induction lit with
  | nil =>
    intro s r h
    simp only [dropLit, Option.some.injEq] at h
    subst h; rfl
  | cons l ls ih =>
    intro s r h
    cases s with
    | nil => simp [dropLit] at h
    | cons c cs =>
      simp only [dropLit] at h
      by_cases hc : c = l
      · rw [if_pos hc] at h
        have hr := ih cs r h
        rw [List.cons_append, hc, hr]
      · rw [if_neg hc] at h
        exact absurd h (by simp)

theorem matchPower_decomp : ∀ (ps : List Doc) (s : Doc) (k : Nat) (r : Doc),
    matchPower ps s = some (k, r) → ∃ p ∈ ps, s = p ++ r ∧ k = p.length := by
  intro ps
  induction ps with
  | nil => intro s k r h; simp [matchPower] at h
  | cons p ps ih =>
    intro s k r h
    simp only [matchPower] at h
    cases hd : dropLit p s with
    | some rest =>
      rw [hd] at h
      simp only [Option.some.injEq, Prod.mk.injEq] at h
      obtain ⟨h1, h2⟩ := h
      subst h2
      exact ⟨p, by simp, dropLit_eq_append p s rest hd, h1.symm⟩
    | none =>
      rw [hd] at h
      obtain ⟨q, hq, hs, hk⟩ := ih s k r h
      exact ⟨q, by simp [hq], hs, hk⟩

theorem countWhile_take (p : Char → Bool) : ∀ (s : Doc),
    ∀ c ∈ s.take (countWhile p s), p c = true := by
  intro s
  induction s with
  | nil => intro c hc; simp at hc
  | cons a as ih =>
    intro c hc
    simp only [countWhile] at hc
    by_cases h : p a
    · rw [if_pos h, List.take_succ_cons] at hc
      rcases List.mem_cons.mp hc with h1 | h1
      · subst h1; exact h
      · exact ih c h1
    · rw [if_neg h] at hc
      simp at hc

theorem take_app {A Z : Doc} {t n : Nat} (h : t = A.length + n) :
    (A ++ Z).take t = A ++ Z.take n := by
  subst h
  exact List.take_append n

/-- A successful overlay match decomposes as whitespace, `<path`,
non-empty whitespace, `class="`, one of the seven lower-case power
identifiers, the closing quote and a tail: the class attribute of a
matched overlay is always an exact lower-case identifier. -/
theorem matchOverlayAt_decomp (s : Doc) (len : Nat) (h : matchOverlayAt s = some len) :
    ∃ ws wc p tl,
      p ∈ POWERS_RE ∧
      s.take len = ws ++ litPath ++ wc ++ litClassEq ++ p ++ '"' :: tl ∧
      (∀ c ∈ ws, isPySpace c = true) ∧ (∀ c ∈ wc, isPySpace c = true) ∧ wc ≠ [] := by
  simp only [matchOverlayAt] at h
  have hw : countWhile isPySpace s ≤ s.length := countWhile_le _ s
  cases h2 : dropLit litPath (s.drop (countWhile isPySpace s)) with
  | none => rw [h2] at h; exact absurd h (by simp)
  | some s2 =>
    rw [h2] at h
    simp only at h
    by_cases hw2 : countWhile isPySpace s2 = 0
    · rw [if_pos hw2] at h; exact absurd h (by simp)
    · rw [if_neg hw2] at h
      have hw2le : countWhile isPySpace s2 ≤ s2.length := countWhile_le _ s2
      cases h4 : dropLit litClassEq (s2.drop (countWhile isPySpace s2)) with
      | none => rw [h4] at h; exact absurd h (by simp)
      | some s4 =>
        rw [h4] at h
        simp only at h
        cases h5 : matchPower POWERS_RE s4 with
        | none => rw [h5] at h; exact absurd h (by simp)
        | some ks5 =>
          obtain ⟨k, s5⟩ := ks5
          rw [h5] at h
          simp only at h
          cases s5 with
          | nil => exact absurd h (by simp)
          | cons c5 s6 =>
            simp only at h
            by_cases hc5 : c5 = '"'
            · rw [if_pos hc5] at h
              simp only [Option.map_eq_some'] at h
              obtain ⟨m, hm, hlen⟩ := h
              subst hc5
              obtain ⟨p, hpmem, hs4, hk⟩ := matchPower_decomp POWERS_RE s4 k ('"' :: s6) h5
              refine ⟨s.take (countWhile isPySpace s), s2.take (countWhile isPySpace s2),
                p, s6.take m, hpmem, ?_,
                countWhile_take isPySpace s, countWhile_take isPySpace s2, ?_⟩
              · have hA := dropLit_eq_append _ _ _ h2
                have hB := dropLit_eq_append _ _ _ h4
                have hlw : (s.take (countWhile isPySpace s)).length = countWhile isPySpace s :=
                  List.length_take_of_le hw
                have hlw2 : (s2.take (countWhile isPySpace s2)).length = countWhile isPySpace s2 :=
                  List.length_take_of_le hw2le
                have hsplit2 : s2 = s2.take (countWhile isPySpace s2) ++
                    (litClassEq ++ (p ++ ('"' :: s6))) := by
                  conv_lhs => rw [← List.take_append_drop (countWhile isPySpace s2) s2]
                  rw [hB, hs4]
                have hsplit : s = s.take (countWhile isPySpace s) ++ (litPath ++ s2) := by
                  conv_lhs => rw [← List.take_append_drop (countWhile isPySpace s) s]
                  rw [hA]
                conv_lhs => rw [hsplit, hsplit2]
                have e1 : len = (s.take (countWhile isPySpace s)).length +
                    (5 + (countWhile isPySpace s2 + (7 + (k + (1 + m))))) := by
                  rw [hlw]; omega
                rw [take_app e1]
                have e2 : 5 + (countWhile isPySpace s2 + (7 + (k + (1 + m)))) =
                    litPath.length + (countWhile isPySpace s2 + (7 + (k + (1 + m)))) := by
                  have hlp : litPath.length = 5 := rfl
                  omega
                rw [take_app e2]
                have e3 : countWhile isPySpace s2 + (7 + (k + (1 + m))) =
                    (s2.take (countWhile isPySpace s2)).length + (7 + (k + (1 + m))) := by
                  rw [hlw2]
                rw [take_app e3]
                have e4 : 7 + (k + (1 + m)) = litClassEq.length + (k + (1 + m)) := by
                  have hlc : litClassEq.length = 7 := rfl
                  omega
                rw [take_app e4]
                have e5 : k + (1 + m) = p.length + (1 + m) := by rw [hk]
                rw [take_app e5]
                have e6 : 1 + m = m + 1 := by omega
                rw [e6, List.take_succ_cons]
                simp [List.append_assoc]
              · intro hnil
                rw [List.take_eq_nil_iff] at hnil
                rcases hnil with h0 | h0
                · exact hw2 h0
                · exact hw2 (by rw [h0]; rfl)
            · rw [if_neg hc5] at h
              exact absurd h (by simp)

/-- Every span of `findOverlays` is an overlay match: the pattern matches
at the start of the span with exactly the length of the span. -/
theorem scanOverlays_spec (svg : Doc) : ∀ (fuel pos : Nat) (m : Nat × Nat),
    m ∈ scanOverlays fuel (svg.drop pos) pos →
    matchOverlayAt (svg.drop m.1) = some (m.2 - m.1) := by
  intro fuel
  induction fuel with
  | zero => intro pos m hm; simp [scanOverlays] at hm
  | succ fuel ih =>
    intro pos m hm
    cases hs : svg.drop pos with
    | nil => rw [hs] at hm; simp [scanOverlays] at hm
    | cons c cs =>
      rw [hs] at hm
      cases hmo : matchOverlayAt (c :: cs) with
      | some len =>
        simp only [scanOverlays, hmo] at hm
        rcases List.mem_cons.mp hm with h1 | h1
        · subst h1
          show matchOverlayAt (svg.drop pos) = some (pos + len - pos)
          rw [hs, hmo]
          congr 1
          omega
        · have hdd : (c :: cs).drop len = svg.drop (pos + len) := by
            rw [← hs]
            exact List.drop_drop len pos svg
          rw [hdd] at h1
          exact ih (pos + len) m h1
      | none =>
        simp only [scanOverlays, hmo] at hm
        have hdd : (c :: cs).drop 1 = svg.drop (pos + 1) := by
          rw [← hs]
          exact List.drop_drop 1 pos svg
        rw [hdd] at hm
        exact ih (pos + 1) m hm

theorem findOverlays_spec (svg : Doc) (m : Nat × Nat) (hm : m ∈ findOverlays svg) :
    matchOverlayAt (svg.drop m.1) = some (m.2 - m.1) := by
  apply scanOverlays_spec svg (svg.length + 1) 0 m
  simpa [findOverlays] using hm

/-! ## Claim theorems -/

/-- C2, counterexample: the render post-processor is not idempotent.  In
`svgShift` the long overlay is removed (its marker resolves to `boo`,
which is not a current center), which pulls the same marker into the
500-character lookback window of the short overlay that the first pass had
kept; the second pass therefore removes more. -/
theorem C2_strip_not_idempotent :
    strip_non_sc_coloring (strip_non_sc_coloring svgShift centersParis) centersParis ≠
      strip_non_sc_coloring svgShift centersParis := by
  decide

/-- C2, amended: the post-processor is idempotent whenever every overlay
matched in its output is kept by the second pass — in particular whenever
the first pass removed nothing, or the output resolves every surviving
overlay to a current supply center or to no marker at all. -/
theorem C2_strip_idempotent_when_output_stable (svg : Doc)
    (centers : List (String × List String))
    (h : ∀ m ∈ findOverlays (strip_non_sc_coloring svg centers),
        should_keep (strip_non_sc_coloring svg centers) (all_scs centers) m.1 = true) :
    strip_non_sc_coloring (strip_non_sc_coloring svg centers) centers =
      strip_non_sc_coloring svg centers := by
  have hc := findOverlays_chain (strip_non_sc_coloring svg centers)
  have h2 := stripGo_keepAll (findOverlays (strip_non_sc_coloring svg centers)) 0 hc h
  rw [List.drop_zero] at h2
  exact h2

/-- C2, witness for the amended theorem at a concrete input on which the
first pass removes an overlay. -/
theorem C2_strip_idempotent_witness :
    strip_non_sc_coloring (strip_non_sc_coloring svgLower centersParis) centersParis =
      strip_non_sc_coloring svgLower centersParis :=
  C2_strip_idempotent_when_output_stable svgLower centersParis (by decide)

/-- C3: the post-processed document is the input with exactly those
matched overlay elements deleted whose province — resolved per the spec as
the nearest preceding identity marker within the preceding 500-character
window, normalised to upper-case first three characters — lies outside the
current supply-center set; overlays resolving inside the set, and overlays
with no resolvable marker (fail open), are preserved in place. -/
theorem C3_neutralization_correct (svg : Doc) (centers : List (String × List String)) :
    strip_non_sc_coloring svg centers =
      deleteSpans svg ((findOverlays svg).filter
        (fun m => ! keepSpec svg (all_scs centers) m.1)) := by
  have h := @stripGo_eq_deleteSpansGo svg (all_scs centers) (findOverlays svg) 0
    (findOverlays_chain svg)
  simpa [should_keep_eq_keepSpec] using h

/-- C4, counterexample: power identifiers are not matched
case-insensitively.  With centers in which province `boo` is not a supply
center, the lower-case overlay of `svgLower` is removed, but the identical
document with class `FRANCE` is returned unchanged: the upper-case variant
is not recognised and not subject to the same decision. -/
theorem C4_uppercase_not_recognised :
    strip_non_sc_coloring svgUpper centersParis = svgUpper ∧
    strip_non_sc_coloring svgLower centersParis ≠ svgLower := by
  decide

/-- C4, amended: power identifiers are matched case-sensitively, in
lower case only.  Every overlay matched by the scan, in every document,
decomposes as optional whitespace, `<path`, non-empty whitespace,
`class="`, one of the seven lower-case power identifiers, the closing
quote and a tail — so an overlay whose class attribute is an upper-case
or mixed-case variant such as `FRANCE` or `France` is never matched; in
particular the document `svgUpper`, whose only overlay-like element
carries class `FRANCE`, is returned unchanged for every centers
mapping. -/
theorem C4_lowercase_only_matching :
    (∀ (svg : Doc), ∀ m ∈ findOverlays svg,
      ∃ ws wc p tl,
        p ∈ POWERS_RE ∧
        (svg.drop m.1).take (m.2 - m.1) =
          ws ++ litPath ++ wc ++ litClassEq ++ p ++ '"' :: tl ∧
        (∀ c ∈ ws, isPySpace c = true) ∧ (∀ c ∈ wc, isPySpace c = true) ∧ wc ≠ []) ∧
    (∀ centers : List (String × List String),
      strip_non_sc_coloring svgUpper centers = svgUpper) := by
  constructor
  · intro svg m hm
    exact matchOverlayAt_decomp _ _ (findOverlays_spec svg m hm)
  · intro centers
    have h : findOverlays svgUpper = [] := by decide
    unfold strip_non_sc_coloring
    rw [h]
    simp [stripGo]

/-- C4, witness for the amended theorem: the single matched overlay of
`svgLower` (span 17 to 41) decomposes with the lower-case identifier. -/
theorem C4_lowercase_only_matching_witness :
    ∃ ws wc p tl,
      p ∈ POWERS_RE ∧
      (svgLower.drop (17, 41).1).take ((17, 41).2 - (17, 41).1) =
        ws ++ litPath ++ wc ++ litClassEq ++ p ++ '"' :: tl ∧
      (∀ c ∈ ws, isPySpace c = true) ∧ (∀ c ∈ wc, isPySpace c = true) ∧ wc ≠ [] :=
  (C4_lowercase_only_matching).1 svgLower (17, 41) (by decide)

/-- C5: after processing, `order_results` is extracted from the last entry
of the serialized phase history whose phase label differs from the new
current phase label, surfacing the recorded orders and per-order results
of that entry; when no entry with a differing label exists the field is omitted
(`none`) and no error is raised (the extraction is total). -/
theorem C5_order_results_extraction (phases? : Option (List PhaseEntry))
    (current : String) :
    extract_order_results phases? current =
      (lastCompletedEntry (phases?.getD []) current).map
        (fun p => ((p.orders).getD (Json.obj []), (p.results).getD (Json.obj []))) ∧
    (extract_order_results phases? current = none ↔
      ∀ p ∈ phases?.getD [], p.name = current) := by
  unfold extract_order_results lastCompletedEntry
  dsimp only
  rw [getLast?_filter]
  constructor
  · cases ((phases?.getD []).reverse).find? (fun p => p.name != current) with
    | none => rfl
    | some last => rfl
  · cases hf : ((phases?.getD []).reverse).find? (fun p => p.name != current) with
    | none =>
      simp only [List.find?_eq_none] at hf
      simp only [List.mem_reverse] at hf
      constructor
      · intro _ p hp
        have := hf p hp
        simpa using this
      · intro _; rfl
    | some last =>
      have hmem := List.find?_some hf
      have hin := List.mem_of_find?_eq_some hf
      rw [List.mem_reverse] at hin
      constructor
      · intro h; exact absurd h (by simp)
      · intro hall
        have := hall last hin
        simp [this] at hmem

/-- C8: the output of the post-processor is the input with zero or more
matched overlay elements (each with its matched leading whitespace)
deleted — exactly the ones the keep decision rejects — and when every
matched element is kept the output is byte-identical to the input. -/
theorem C8_frame_preservation (svg : Doc) (centers : List (String × List String)) :
    strip_non_sc_coloring svg centers =
      deleteSpans svg ((findOverlays svg).filter
        (fun m => ! should_keep svg (all_scs centers) m.1)) ∧
    ((∀ m ∈ findOverlays svg, should_keep svg (all_scs centers) m.1 = true) →
      strip_non_sc_coloring svg centers = svg) := by
  constructor
  · exact stripGo_eq_deleteSpansGo (findOverlays svg) 0 (findOverlays_chain svg)
  · intro hall
    have h := stripGo_keepAll (findOverlays svg) 0 (findOverlays_chain svg) hall
    rw [List.drop_zero] at h
    exact h

/-- C8, witness: on a document whose single overlay is a current supply
center, every match is kept and the output is byte-identical. -/
theorem C8_frame_preservation_witness :
    strip_non_sc_coloring svgKept centersParis = svgKept :=
  (C8_frame_preservation svgKept centersParis).2 (by decide)



/-- C1, code bug: a valid JSON document that is not an object — stdin
`[]` — reaches `request.get("op")` at line 166, which sits outside both
try blocks; the AttributeError escapes `main` and the process crashes
without writing any JSON response, for every engine. -/
theorem C1_nonobject_request_crashes (G : Type) (eng : Engine G) :
    main (Except.ok (Json.arr [])) eng =
      Except.error ⟨("AttributeError"),
        ("\x27list\x27 object has no attribute \x27get\x27")⟩ := by
  rfl

/-- C6: a request whose `op` is a string outside the five recognised
operation names yields exactly the error response `Unknown op: [name]`,
with no result field and independently of the engine. -/
theorem C6_unknown_op (kvs : List (String × Json)) (name : String)
    (hop : dictGet kvs ("op") = some (Json.str name))
    (hname : name ∉ ("new_game") :: stateOps) :
    ∀ (G : Type) (eng : Engine G),
      main (Except.ok (Json.obj kvs)) eng =
        Except.ok (errResp (("Unknown op: ") ++ name)) := by
  intro G eng
  have h1 : (name == ("new_game")) = false :=
    beq_eq_false_iff_ne.mpr (fun h => hname (by simp [stateOps, h]))
  have h2 : (name == ("set_orders_and_process")) = false :=
    beq_eq_false_iff_ne.mpr (fun h => hname (by simp [stateOps, h]))
  have h3 : (name == ("get_possible")) = false :=
    beq_eq_false_iff_ne.mpr (fun h => hname (by simp [stateOps, h]))
  have h4 : (name == ("get_state")) = false :=
    beq_eq_false_iff_ne.mpr (fun h => hname (by simp [stateOps, h]))
  have h5 : (name == ("render_map")) = false :=
    beq_eq_false_iff_ne.mpr (fun h => hname (by simp [stateOps, h]))
  simp [main, pyGetAttrGet, runOp, hop, opEq, stateOps, pyStrOpt, pyStr,
    h1, h2, h3, h4, h5]

/-- C6, witness. -/
theorem C6_unknown_op_witness :
    main (Except.ok (Json.obj [(("op"), Json.str ("frobnicate"))])) unitEngine =
      Except.ok (errResp (("Unknown op: ") ++ ("frobnicate"))) :=
  C6_unknown_op [(("op"), Json.str ("frobnicate"))] ("frobnicate") (by rfl)
    (by decide) Unit unitEngine

/-- C7: for each of the four operations that require `game_state`, a
request without that key is answered with exactly
`Missing game_state`, independently of the engine (no engine call can
influence the response). -/
theorem C7_missing_game_state (kvs : List (String × Json)) (name : String)
    (hop : dictGet kvs ("op") = some (Json.str name))
    (hmem : name ∈ stateOps)
    (hgs : dictGet kvs ("game_state") = none) :
    ∀ (G : Type) (eng : Engine G),
      main (Except.ok (Json.obj kvs)) eng =
        Except.ok (errResp ("Missing game_state")) := by
  intro G eng
  fin_cases hmem
  all_goals
    simp [main, pyGetAttrGet, runOp, hop, hgs, opEq, stateOps, truthyOpt]

/-- C7, witness. -/
theorem C7_missing_game_state_witness :
    main (Except.ok (Json.obj [(("op"), Json.str ("get_state"))])) unitEngine =
      Except.ok (errResp ("Missing game_state")) :=
  C7_missing_game_state [(("op"), Json.str ("get_state"))] ("get_state")
    (by rfl) (by decide) (by rfl) Unit unitEngine

/-- C9: a `game_state` value that is present but falsy (empty object,
empty string, empty list, zero, false, or null) is treated exactly like an
absent one: the response is `Missing game_state`, independently of the
engine, so the value is never passed to deserialization. -/
theorem C9_falsy_game_state (kvs : List (String × Json)) (name : String)
    (v : Json)
    (hop : dictGet kvs ("op") = some (Json.str name))
    (hmem : name ∈ stateOps)
    (hgs : dictGet kvs ("game_state") = some v)
    (hfalsy : truthy v = false) :
    ∀ (G : Type) (eng : Engine G),
      main (Except.ok (Json.obj kvs)) eng =
        Except.ok (errResp ("Missing game_state")) := by
  intro G eng
  fin_cases hmem
  all_goals
    simp [main, pyGetAttrGet, runOp, hop, hgs, opEq, stateOps, truthyOpt, hfalsy]

/-- C9, witness: an empty object as `game_state`. -/
theorem C9_falsy_game_state_witness :
    main (Except.ok (Json.obj
        [(("op"), Json.str ("get_state")), (("game_state"), Json.obj [])]))
      unitEngine =
      Except.ok (errResp ("Missing game_state")) :=
  C9_falsy_game_state
    [(("op"), Json.str ("get_state")), (("game_state"), Json.obj [])]
    ("get_state") (Json.obj []) (by rfl) (by decide) (by rfl) (by rfl)
    Unit unitEngine

/-- C10: a well-formed object request without any `op` key is answered
through the unknown-operation branch with exactly `Unknown op: None`
(the missing key reads as Python None), independently of the engine. -/
theorem C10_missing_op_formats_none (kvs : List (String × Json))
    (hop : dictGet kvs ("op") = none) :
    ∀ (G : Type) (eng : Engine G),
      main (Except.ok (Json.obj kvs)) eng =
        Except.ok (errResp ("Unknown op: None")) := by
  intro G eng
  simp [main, pyGetAttrGet, runOp, hop, opEq, stateOps, pyStrOpt]

/-- C10, witness: the empty request object. -/
theorem C10_missing_op_formats_none_witness :
    main (Except.ok (Json.obj [])) unitEngine =
      Except.ok (errResp ("Unknown op: None")) :=
  C10_missing_op_formats_none [] (by rfl) Unit unitEngine


end Adjudicate
